import Mathlib

/-!
Verification of the tax_agent repository: a shallow embedding of the
XML-to-markdown converter (`src/xml_to_markdown.py`), the retrieval layer
(`src/agent.py`) and the chunking helper (`src/format_markdown.py`),
together with proofs about the claims of the specification.

Python strings are modelled as Lean `String`s (lists of characters);
`re`-based substitutions are modelled by explicit character scanners that
implement the same leftmost, non-overlapping match-and-replace semantics.
-/

/-- Python whitespace characters (the ASCII part of `str.strip` / `\s`). -/
def pyWs (c : Char) : Bool :=
  c = ' ' || c = '\t' || c = '\n' || c = '\r' || c = '\x0b' || c = '\x0c'

/-- `str.strip()` on a character list: drop whitespace at both ends. -/
def pyStripL (l : List Char) : List Char :=
  ((l.dropWhile pyWs).reverse.dropWhile pyWs).reverse

/-- `str.strip()` on a string. -/
def pyStrip (s : String) : String :=
  ⟨pyStripL s.data⟩

/-- `str.lower()` (ASCII). -/
def pyLower (s : String) : String :=
  ⟨s.data.map Char.toLower⟩

/-- Whether `pat` is a prefix of the second list (needle-first). -/
def listStartsWith (pat : List Char) : List Char → Bool :=
  fun l =>
    match pat, l with
    | [], _ => true
    | _ :: _, [] => false
    | p :: ps, c :: cs => p = c && listStartsWith ps cs

/-- Python's substring test `pat in l`. -/
def isSubstr (pat : List Char) : List Char → Bool
  | [] => listStartsWith pat []
  | c :: cs => listStartsWith pat (c :: cs) || isSubstr pat cs

/-- Substring test on strings (`a in b` in Python). -/
def strContains (pat s : String) : Bool :=
  isSubstr pat.data s.data

/-- Concatenation of a list of strings (in order). -/
def concatAll : List String → String
  | [] => ""
  | s :: rest => s ++ concatAll rest

/-- Helper for splitters: prepend a character to the first piece. -/
def consHead (c : Char) : List (List Char) → List (List Char)
  | [] => [[c]]
  | h :: t => (c :: h) :: t

/-- `text.split("\n")` on a character list. -/
def splitOnNl : List Char → List (List Char)
  | [] => [[]]
  | c :: r =>
    match c with
    | '\n' => [] :: splitOnNl r
    | _ => consHead c (splitOnNl r)

/-- Join a list of lines with a single newline. -/
def joinNl : List (List Char) → List Char
  | [] => []
  | x :: r =>
    match r with
    | [] => x
    | _ :: _ => x ++ '\n' :: joinNl r

mutual
/-- `text.split("\n\n")` on a character list (leftmost, non-overlapping).
`splitParasAfterNl` is the state in which one `'\n'` has just been read. -/
def splitParasL : List Char → List (List Char)
  | [] => [[]]
  | c :: r => if c = '\n' then splitParasAfterNl r else consHead c (splitParasL r)
def splitParasAfterNl : List Char → List (List Char)
  | [] => [['\n']]
  | c :: r =>
    if c = '\n' then [] :: splitParasL r
    else consHead '\n' (consHead c (splitParasL r))
end

/-- `"\n\n".join` on character lists. -/
def joinParasL : List (List Char) → List Char
  | [] => []
  | x :: r =>
    match r with
    | [] => x
    | _ :: _ => x ++ '\n' :: '\n' :: joinParasL r

/-! ### Post-processing pass (`convert_xml_to_markdown`, lines 40-51)

The pass runs four stages in order: collapse runs of three or more
newlines to two, strip every line, remove a blank line immediately
preceding a heading line, collapse runs of two or more spaces to one. -/

/-- Stage 1, `re.sub(r"\n{3,}", "\n\n", s)`: every maximal run of three or
more newlines becomes exactly two (implemented by dropping the leading
newline of any run of three). -/
def collapseNlL : List Char → List Char
  | [] => []
  | c :: r =>
    match c, r with
    | '\n', '\n' :: '\n' :: _ => collapseNlL r
    | _, _ => c :: collapseNlL r

/-- Stage 1 on strings. -/
def collapse_newlines (s : String) : String :=
  ⟨collapseNlL s.data⟩

/-- Stage 2: split on newlines, `strip()` each line, re-join. -/
def strip_lines (s : String) : String :=
  ⟨joinNl ((splitOnNl s.data).map pyStripL)⟩

/-- Stage 3, `re.sub(r"\n\n(#+\s)", r"\n\1", s)`: a blank line directly
before a heading line is removed.  The scanner consumes at least one
character per step, so fuel equal to the input length is enough. -/
def removeBlankBeforeHeadingL : Nat → List Char → List Char
  | 0, l => l
  | _ + 1, [] => []
  | n + 1, '\n' :: t@('\n' :: rest) =>
    let hs := rest.takeWhile (fun c => c = '#')
    match hs, rest.drop hs.length with
    | _ :: _, w :: tail2 =>
      if pyWs w then '\n' :: (hs ++ w :: removeBlankBeforeHeadingL n tail2)
      else '\n' :: removeBlankBeforeHeadingL n t
    | _, _ => '\n' :: removeBlankBeforeHeadingL n t
  | n + 1, c :: r => c :: removeBlankBeforeHeadingL n r

/-- Stage 3 on strings. -/
def remove_blank_before_heading (s : String) : String :=
  ⟨removeBlankBeforeHeadingL s.data.length s.data⟩

/-- Stage 4, `re.sub(r" {2,}", " ", s)`: every maximal run of two or more
spaces becomes one space. -/
def collapseSpacesL : List Char → List Char
  | [] => []
  | c :: r =>
    match c, r with
    | ' ', ' ' :: _ => collapseSpacesL r
    | _, _ => c :: collapseSpacesL r

/-- Stage 4 on strings. -/
def collapse_spaces (s : String) : String :=
  ⟨collapseSpacesL s.data⟩

/-- The whole post-processing pass of `convert_xml_to_markdown`
(lines 40-51), stages applied in source order. -/
def post_process (s : String) : String :=
  collapse_spaces (remove_blank_before_heading (strip_lines (collapse_newlines s)))

/-! ### Chunk splitting (`format_markdown.split_by_paragraphs`) -/

/-- The accumulation loop of `split_by_paragraphs`: greedily pack
paragraphs into chunks, starting a new chunk when adding the next
paragraph (plus the two separator characters) would exceed the limit. -/
def chunkLoop (mx : Nat) : List (List Char) → List Char → List (List Char)
  | [], cur => if cur = [] then [] else [cur]
  | p :: ps, cur =>
    if cur.length + p.length + 2 > mx ∧ cur ≠ [] then
      cur :: chunkLoop mx ps p
    else
      chunkLoop mx ps (if cur = [] then p else cur ++ '\n' :: '\n' :: p)

/-- `split_by_paragraphs(text, max_chunk_size)`: split at paragraph
boundaries (`"\n\n"`), then pack greedily. -/
def split_by_paragraphs (text : String) (max_chunk_size : Nat) : List String :=
  (chunkLoop max_chunk_size (splitParasL text.data) []).map (fun d => (⟨d⟩ : String))

/-! ### Citation extraction (`TaxAgent._extract_citation`) -/

/-- Leftmost match of `§(\d+)(?:\(([^)]+)\))?` (`re.search`): returns the
digit run and the optional parenthesised subsection (empty when absent). -/
def searchSection : List Char → Option (List Char × List Char)
  | [] => none
  | c :: r =>
    if c = '§' then
      let ds := r.takeWhile Char.isDigit
      if ds = [] then searchSection r
      else
        let r2 := r.drop ds.length
        let ss :=
          match r2 with
          | '(' :: t =>
            let inner := t.takeWhile (fun ch => ch ≠ ')')
            if inner ≠ [] ∧ listStartsWith [')'] (t.drop inner.length) then inner else []
          | _ => []
        some (ds, ss)
    else searchSection r

/-- Try to match `#{1,4}\s+§\d+(?:\([^)]+\))?` at the head of the list;
on success return the remainder after the matched region. -/
def matchHashSecPrefix (l : List Char) : Option (List Char) :=
  let hs := l.takeWhile (fun c => c = '#')
  if hs = [] ∨ 4 < hs.length then none
  else
    let r1 := l.drop hs.length
    let ws := r1.takeWhile pyWs
    if ws = [] then none
    else
      match r1.drop ws.length with
      | '§' :: r3 =>
        let ds := r3.takeWhile Char.isDigit
        if ds = [] then none
        else
          let r4 := r3.drop ds.length
          match r4 with
          | '(' :: t =>
            let inner := t.takeWhile (fun ch => ch ≠ ')')
            if inner ≠ [] ∧ listStartsWith [')'] (t.drop inner.length) then
              some (t.drop (inner.length + 1))
            else some r4
          | _ => some r4
      | _ => none

/-- `re.sub(r"#{1,4}\s+§\d+(?:\([^)]+\))?", "", s)` as a fuelled scanner
(each step consumes at least one character, so fuel = input length). -/
def subSecPatternL : Nat → List Char → List Char
  | 0, l => l
  | _ + 1, [] => []
  | n + 1, c :: cs =>
    match matchHashSecPrefix (c :: cs) with
    | some rest => subSecPatternL n rest
    | none => c :: subSecPatternL n cs

/-- Try to match `#{1,4}\s+` at the head of the list; on success return
the remainder after the matched region. -/
def matchHashWs (l : List Char) : Option (List Char) :=
  let hs := l.takeWhile (fun c => c = '#')
  if hs = [] ∨ 4 < hs.length then none
  else
    let r1 := l.drop hs.length
    let ws := r1.takeWhile pyWs
    if ws = [] then none else some (r1.drop ws.length)

/-- `re.sub(r"#{1,4}\s+", "", s)` as a fuelled scanner. -/
def subHashWsL : Nat → List Char → List Char
  | 0, l => l
  | _ + 1, [] => []
  | n + 1, c :: cs =>
    match matchHashWs (c :: cs) with
    | some rest => subHashWsL n rest
    | none => c :: subHashWsL n cs

/-- `TaxAgent._extract_citation` (agent.py lines 190-205). -/
def extract_citation (heading : String) : String :=
  match searchSection heading.data with
  | some (ds, ss) =>
    let heading_text := pyStrip ⟨subSecPatternL heading.data.length heading.data⟩
    "26 USC §" ++ (⟨ds⟩ : String) ++
      (if ss ≠ [] then "(" ++ (⟨ss⟩ : String) ++ ")" else "") ++
      " [" ++ heading_text ++ "]"
  | none =>
    "US Tax Code [" ++ pyStrip ⟨subHashWsL heading.data.length heading.data⟩ ++ "]"

/-- The specification claim's reading of the fallback cleaning step: only
the LEADING run of markdown hashes is removed, then the result is
trimmed.  (The code actually removes hash runs everywhere; this
definition exists to state that difference.) -/
def stripLeadingHashes (s : String) : String :=
  pyStrip ⟨s.data.dropWhile (fun c => c = '#')⟩

/-! ### Relevant-section retrieval (`TaxAgent._find_relevant_sections`) -/

/-- The fixed keyword vocabulary of `_extract_key_terms`. -/
def tax_terms : List String :=
  ["deduction", "credit", "income", "tax", "filing", "return",
   "dependent", "exemption", "liability", "asset", "charitable",
   "business", "expense", "capital", "gain", "loss", "dividend",
   "interest", "retirement", "IRA", "401k", "estate", "gift"]

/-- The stopword list of the fallback branch of `_extract_key_terms`. -/
def question_stopwords : List String :=
  ["what", "where", "when", "which", "there", "their", "about"]

/-- Split at every whitespace character (empty pieces kept). -/
def splitWsAll : List Char → List (List Char)
  | [] => [[]]
  | c :: r => if pyWs c then [] :: splitWsAll r else consHead c (splitWsAll r)

/-- Python `str.split()`: split on whitespace runs, dropping empties. -/
def pySplit (s : String) : List String :=
  ((splitWsAll s.data).filter (fun w => w ≠ [])).map (fun d => (⟨d⟩ : String))

/-- `TaxAgent._extract_key_terms` (agent.py lines 141-188). -/
def extract_key_terms (question : String) : List String :=
  let found_terms := tax_terms.filter (fun t => strContains (pyLower t) (pyLower question))
  if found_terms = [] then
    (pySplit question).filter
      (fun w => decide (4 < w.length) && !(question_stopwords.contains (pyLower w)))
  else found_terms

/-- Does the lookahead `\n#{1,4}\s` match at the head of the list? -/
def headingStartB : List Char → Bool
  | '\n' :: r =>
    let hs := r.takeWhile (fun c => c = '#')
    if hs = [] ∨ 4 < hs.length then false
    else
      match r.drop hs.length with
      | w :: _ => pyWs w
      | [] => false
  | _ => false

/-- The lazy group `(?:.+?)(?=\n#{1,4}\s|\Z)` (DOTALL): the shortest
non-empty prefix whose remainder is empty or starts a heading line. -/
def grabLazyContent : List Char → Option (List Char × List Char)
  | [] => none
  | c :: cs =>
    if cs = [] ∨ headingStartB cs then some ([c], cs)
    else
      match grabLazyContent cs with
      | some (q, r) => some (c :: q, r)
      | none => none

/-- Try to match the section pattern
`(#{1,4}\s[^\n]+)(?:\n\n)((?:.+?)(?=\n#{1,4}\s|\Z))` at the head of the
list; on success return (heading, content, remainder). -/
def matchSectionAt (l : List Char) : Option (String × String × List Char) :=
  let hs := l.takeWhile (fun c => c = '#')
  if hs = [] ∨ 4 < hs.length then none
  else
    match l.drop hs.length with
    | w :: r1 =>
      if pyWs w then
        let line := r1.takeWhile (fun c => c ≠ '\n')
        if line = [] then none
        else
          match r1.drop line.length with
          | '\n' :: '\n' :: r2 =>
            match grabLazyContent r2 with
            | some (q, rest) => some (⟨hs ++ w :: line⟩, ⟨q⟩, rest)
            | none => none
          | _ => none
      else none
    | [] => none

/-- `re.findall(section_pattern, content, re.DOTALL)` as a fuelled
leftmost non-overlapping scanner. -/
def findSectionsL : Nat → List Char → List (String × String)
  | 0, _ => []
  | _ + 1, [] => []
  | n + 1, c :: cs =>
    match matchSectionAt (c :: cs) with
    | some (h, ct, rest) => (h, ct) :: findSectionsL n rest
    | none => findSectionsL n cs

/-- All (heading, content) section pairs of the document. -/
def findSections (content : String) : List (String × String) :=
  findSectionsL content.data.length content.data

/-- One relevant-section record of `_find_relevant_sections`. -/
structure RelevantSection where
  heading : String
  content : String
  citation : String
  relevance : Nat
deriving DecidableEq

/-- Python `s[:n]`. -/
def pyTake (n : Nat) (s : String) : String :=
  ⟨s.data.take n⟩

/-- The per-section relevance score: how many key terms occur (lowercased)
in the content or the heading. -/
def relevance_score (key_terms : List String) (heading content : String) : Nat :=
  key_terms.countP
    (fun term => strContains (pyLower term) (pyLower content) ||
                 strContains (pyLower term) (pyLower heading))

/-- Stable descending insertion: `x` goes before the first element with a
strictly smaller relevance (so earlier equal-relevance records stay first,
as with Python's stable sort). -/
def insertByRelevance (x : RelevantSection) :
    List RelevantSection → List RelevantSection
  | [] => [x]
  | y :: ys =>
    if y.relevance < x.relevance then x :: y :: ys
    else y :: insertByRelevance x ys

/-- Python's stable `relevant_sections.sort(key=..., reverse=True)`. -/
def sortByRelevance (l : List RelevantSection) : List RelevantSection :=
  l.foldl (fun acc x => insertByRelevance x acc) []

/-- `TaxAgent._find_relevant_sections` (agent.py lines 95-139), with the
document content passed explicitly in place of `self.tax_code_content`. -/
def find_relevant_sections (tax_code_content question : String) :
    List RelevantSection :=
  let key_terms := extract_key_terms question
  let scored := (findSections tax_code_content).filterMap (fun hc =>
    let score := relevance_score key_terms hc.1 hc.2
    if 0 < score then
      some ⟨hc.1, pyTake 500 hc.2, extract_citation hc.1, score⟩
    else none)
  (sortByRelevance scored).take 3

/-! ### The document tree model (`xml_to_markdown.py`)

An lxml element: a tag (possibly namespace-qualified as `{uri}local`),
attributes, optional direct text, ordered children, and optional tail
text (text following the element inside the parent's stream).  The
children are a mutually-inductive list so that all tree functions are
structurally recursive and kernel-computable. -/

mutual
inductive Xml where
  | mk (tag : String) (attrs : List (String × String)) (text : Option String)
       (children : XmlList) (tail : Option String)
  deriving DecidableEq
inductive XmlList where
  | nil
  | cons (head : Xml) (tail : XmlList)
  deriving DecidableEq
end

/-- The element's raw tag. -/
def Xml.tag : Xml → String
  | .mk t _ _ _ _ => t

/-- The element's attributes. -/
def Xml.attrs : Xml → List (String × String)
  | .mk _ a _ _ _ => a

/-- The element's direct text (`element.text`, possibly absent). -/
def Xml.text : Xml → Option String
  | .mk _ _ x _ _ => x

/-- The element's children. -/
def Xml.children : Xml → XmlList
  | .mk _ _ _ cs _ => cs

/-- The element's tail text (`element.tail`, possibly absent). -/
def Xml.tail : Xml → Option String
  | .mk _ _ _ _ tl => tl

/-- View an `XmlList` as an ordinary list. -/
def XmlList.toList : XmlList → List Xml
  | .nil => []
  | .cons h t => h :: XmlList.toList t

/-- Build an `XmlList` from an ordinary list. -/
def xmlListOf : List Xml → XmlList
  | [] => .nil
  | h :: rest => .cons h (xmlListOf rest)

/-- `text.split("\n")` returning strings. -/
def pySplitLines (s : String) : List String :=
  (splitOnNl s.data).map (fun d => (⟨d⟩ : String))

/-- `get_tag_name` on the raw tag string: strip a `{namespace}` prefix
(Python `tag.split("}")[1]` guarded by `"}" in tag`, i.e. the characters
between the first and second closing brace). -/
def resolveTag (t : String) : String :=
  if t.data.contains '}' then
    ⟨((t.data.dropWhile (fun c => c ≠ '}')).drop 1).takeWhile (fun c => c ≠ '}')⟩
  else t

/-- `get_tag_name(element)` (xml_to_markdown.py lines 317-322). -/
def get_tag_name (e : Xml) : String :=
  resolveTag e.tag

/-- `element.get(key, "")` on the attribute list. -/
def attrLookup (attrs : List (String × String)) (key : String) : String :=
  match attrs.find? (fun kv => kv.1 == key) with
  | some kv => kv.2
  | none => ""

/-- The tags whose renderer consumes its own children
(`should_process_children`, lines 63-77). -/
def skip_children_tags : List String :=
  ["section", "subsection", "paragraph", "subparagraph", "table", "list",
   "note", "notes"]

/-- The allow-list of the empty-element filter of `element_to_markdown`
(lines 112-122); note it additionally holds `"title"`. -/
def structural_allow_tags : List String :=
  ["section", "subsection", "paragraph", "subparagraph", "table", "list",
   "title", "note", "notes"]

/-- `should_process_children(element)` (lines 63-77). -/
def should_process_children (e : Xml) : Bool :=
  !(skip_children_tags.contains (get_tag_name e))

/-- The loop of `get_child_text` (lines 325-330): first child with the
given resolved tag and truthy text yields its stripped text. -/
def get_child_text_list (child_tag : String) : XmlList → String
  | .nil => ""
  | .cons c rest =>
    if get_tag_name c = child_tag ∧ c.text.getD "" ≠ "" then
      pyStrip (c.text.getD "")
    else get_child_text_list child_tag rest

/-- `get_child_text(element, child_tag)` (lines 325-330). -/
def get_child_text (e : Xml) (child_tag : String) : String :=
  get_child_text_list child_tag e.children

/-- The tail-text suffix appended at the end of `element_to_markdown`
(lines 310-312): `if element.tail and element.tail.strip()`. -/
def tailText (tl : Option String) : String :=
  if tl.getD "" ≠ "" ∧ pyStrip (tl.getD "") ≠ "" then
    pyStrip (tl.getD "") ++ " "
  else ""

/-- `get_tag_name(element.getparent()) == "uscDoc"` for a threaded parent
tag (the embedding passes the parent's raw tag explicitly in place of
lxml's parent pointer). -/
def parentIsUscDoc : Option String → Bool
  | some pt => resolveTag pt == "uscDoc"
  | none => false

/-! ### BeautifulSoup-based table conversion and xpath-based lists

`table_to_markdown` serialises the subtree and re-parses it with
BeautifulSoup; the embedding models that round-trip as a direct search of
the tree, matching elements by lowercased resolved tag name (namespaced
tags, which serialise with a prefix, do not match the plain names the
code searches for — such tables yield no match, hence empty output, the
same degradation the claims describe for a missing table). -/

/-- The tag name an element carries after the HTML round-trip. -/
def htmlTagName (t : String) : String :=
  pyLower (resolveTag t)

/-- All descendants (document order, excluding the root of the search)
satisfying the predicate — BS4 `find_all` / lxml `.//` searches. -/
def findAllList (p : Xml → Bool) : XmlList → List Xml
  | .nil => []
  | .cons (Xml.mk ct ca cx ccs ctl) rest =>
    (if p (Xml.mk ct ca cx ccs ctl) then [Xml.mk ct ca cx ccs ctl] else []) ++
    findAllList p ccs ++ findAllList p rest

/-- BS4 `element.find(tagname)`: first matching descendant. -/
def findFirstIn (tagname : String) (e : Xml) : Option Xml :=
  (findAllList (fun c => htmlTagName c.tag == tagname) e.children).head?

mutual
/-- All text strings of an element's subtree in document order
(`element.text`, then recursively each child's strings and tail). -/
def soupStrings : Xml → List String
  | .mk _ _ txt cs _ =>
    (match txt with | some s => [s] | none => []) ++ soupStringsList cs
def soupStringsList : XmlList → List String
  | .nil => []
  | .cons c rest =>
    soupStrings c ++
    (match c.tail with | some s => [s] | none => []) ++
    soupStringsList rest
end

/-- BS4 `element.get_text(strip=True)`: concatenate all subtree strings,
each stripped. -/
def get_text_strip (e : Xml) : String :=
  concatAll ((soupStrings e).map pyStrip)

/-- `soup.find("table")`: the serialised root itself or its first
matching descendant. -/
def find_table (e : Xml) : Option Xml :=
  if htmlTagName e.tag == "table" then some e
  else (findAllList (fun c => htmlTagName c.tag == "table") e.children).head?

/-- Header cells of a table (lines 347-354): the `th` descendants of the
first `thead`, flattened to text. -/
def table_headers (tb : Xml) : List String :=
  match findFirstIn "thead" tb with
  | none => []
  | some th =>
    (findAllList (fun c => htmlTagName c.tag == "th") th.children).map get_text_strip

/-- Header row and separator row (lines 356-358), emitted only when at
least one header cell was found. -/
def table_header_lines (tb : Xml) : List String :=
  let headers := table_headers tb
  if headers ≠ [] then
    ["| " ++ String.intercalate " | " headers ++ " |",
     "| " ++ String.intercalate " | " (List.replicate headers.length "---") ++ " |"]
  else []

/-- Body rows (lines 360-371): one pipe row per `tr` of the first
`tbody`, skipping rows with no cells. -/
def table_body_lines (tb : Xml) : List String :=
  match findFirstIn "tbody" tb with
  | none => []
  | some tbd =>
    ((findAllList (fun c => htmlTagName c.tag == "tr") tbd.children).map
        (fun tr => (findAllList (fun c => htmlTagName c.tag == "td") tr.children).map
          get_text_strip)).filterMap
      (fun row =>
        if row ≠ [] then some ("| " ++ String.intercalate " | " row ++ " |")
        else none)

/-- All emitted table lines, header part first. -/
def table_lines (tb : Xml) : List String :=
  table_header_lines tb ++ table_body_lines tb

/-- `table_to_markdown(table_element)` (lines 333-373). -/
def table_to_markdown (e : Xml) : String :=
  match find_table e with
  | none => ""
  | some tb => String.intercalate "\n" (table_lines tb)

/-- `convert_list(list_element)` (lines 376-394): one `* item` line per
`item` descendant with non-empty flattened text. -/
def convert_list (e : Xml) : String :=
  let items := findAllList (fun c => c.tag == "item") e.children
  String.intercalate "\n" (items.filterMap (fun it =>
    let base := if it.text.getD "" ≠ "" then pyStrip (it.text.getD "") else ""
    let extra := concatAll
      ((findAllList (fun c => c.tag == "content") it.children).map
        (fun c => if c.text.getD "" ≠ "" then " " ++ pyStrip (c.text.getD "") else ""))
    let item_text := base ++ extra
    if item_text ≠ "" then some ("* " ++ item_text) else none))

/-! ### The element renderer and the tree walker

`element_to_markdown(element, level)` (lines 101-314) and
`process_xml_tree(element, level)` (lines 80-98).  The walker is split as
`process_xml_tree e = element_to_markdown e ++ extraWalk e`, where
`extraWalk` is the walker's own child loop (run only when
`should_process_children` holds); `walkExcept` is the container branches'
child loop (`for child ... if child_tag not in [...]`), and
`noteChildren` is the blockquote child loop of the note branch.  lxml's
parent pointer (used only by the document-title branch) is threaded as
the parent's raw tag. -/

mutual
def element_to_markdown (parent : Option String) (level : Nat) : Xml → String
  | .mk t attrs txt cs tl =>
    let tag := resolveTag t
    let text := txt.getD ""
    if pyStrip text = "" ∧ structural_allow_tags.contains tag = false then ""
    else
      (if tag = "title" ∧ parentIsUscDoc parent = true then
        (if get_child_text_list "num" cs ≠ "" then
          "# " ++ get_child_text_list "num" cs ++ "\n\n" else "") ++
        (if get_child_text_list "heading" cs ≠ "" then
          "# " ++ get_child_text_list "heading" cs ++ "\n\n" else "")
      else if tag = "section" then
        let num := get_child_text_list "num" cs
        let heading := get_child_text_list "heading" cs
        let content := walkExcept (some t) (level + 1) ["num", "heading"] cs
        let header := (if num ≠ "" then num ++ " " else "") ++
                      (if heading ≠ "" then heading else "")
        (if header ≠ "" then "\n## " ++ header ++ "\n\n" else "") ++ content
      else if tag = "subsection" then
        let num := get_child_text_list "num" cs
        let heading := get_child_text_list "heading" cs
        let content := walkExcept (some t) (level + 1) ["num", "heading"] cs
        let header := (if num ≠ "" then num ++ " " else "") ++
                      (if heading ≠ "" then heading else "")
        (if header ≠ "" then "\n### " ++ header ++ "\n\n" else "") ++ content
      else if tag = "paragraph" then
        let num := get_child_text_list "num" cs
        let content_text := get_child_text_list "content" cs
        let additional := walkExcept (some t) (level + 1) ["num", "content"] cs
        let r := (if num ≠ "" then "**" ++ num ++ "** " else "") ++
                 (if content_text ≠ "" then content_text ++ " " else "") ++
                 pyStrip additional
        if pyStrip r ≠ "" then r ++ "\n" else r
      else if tag = "subparagraph" then
        let num := get_child_text_list "num" cs
        let content_text := get_child_text_list "content" cs
        let additional := walkExcept (some t) (level + 1) ["num", "content"] cs
        let r := (if num ≠ "" then "  - **" ++ num ++ "** " else "") ++
                 (if content_text ≠ "" then content_text ++ " " else "") ++
                 pyStrip additional
        if pyStrip r ≠ "" then r ++ "\n" else r
      else if tag = "p" then
        if pyStrip text ≠ "" then pyStrip text ++ " " else ""
      else if tag = "content" ∨ tag = "chapeau" then
        if pyStrip text ≠ "" then pyStrip text ++ " " else ""
      else if tag = "table" then
        let tc := table_to_markdown (Xml.mk t attrs txt cs tl)
        if tc ≠ "" then tc ++ "\n" else ""
      else if tag = "note" ∨ tag = "notes" then
        let heading := get_child_text_list "heading" cs
        (if heading ≠ "" then "> **" ++ heading ++ "**\n" else "") ++
        (if pyStrip text ≠ "" then
          String.intercalate "\n"
            ((pySplitLines (pyStrip text)).map (fun ln => "> " ++ ln)) ++ "\n"
         else "") ++
        noteChildren (some t) (level + 1) cs
      else if tag = "ref" then
        let href := attrLookup attrs "href"
        if href ≠ "" ∧ pyStrip text ≠ "" then
          "[" ++ pyStrip text ++ "](" ++ href ++ ")"
        else if pyStrip text ≠ "" then "*" ++ pyStrip text ++ "*"
        else ""
      else if tag = "list" then
        let lc := convert_list (Xml.mk t attrs txt cs tl)
        if lc ≠ "" then lc ++ "\n" else ""
      else if tag = "num" ∨ tag = "heading" then ""
      else if tag = "meta" ∨ tag = "main" then ""
      else if pyStrip text ≠ "" then pyStrip text ++ " " else "") ++
      tailText tl

def walkExcept (parent : Option String) (level : Nat) (excluded : List String) :
    XmlList → String
  | .nil => ""
  | .cons c rest =>
    (if excluded.contains (get_tag_name c) then ""
     else element_to_markdown parent level c ++ extraWalk level c) ++
    walkExcept parent level excluded rest

def extraWalk (level : Nat) : Xml → String
  | .mk t a x cs tl =>
    if should_process_children (Xml.mk t a x cs tl) then
      walkExcept (some t) (level + 1) [] cs
    else ""

def noteChildren (parent : Option String) (level : Nat) : XmlList → String
  | .nil => ""
  | .cons c rest =>
    (if get_tag_name c = "heading" then ""
     else
       let child_result := element_to_markdown parent level c ++ extraWalk level c
       if child_result ≠ "" then
         let bql := ((pySplitLines child_result).filter
            (fun ln => pyStrip ln ≠ "")).map (fun ln => "> " ++ ln)
         if bql ≠ [] then String.intercalate "\n" bql ++ "\n" else ""
       else "") ++
    noteChildren parent level rest
end

/-- `process_xml_tree(element, level)` (lines 80-98) for a present
element: render it, then walk the children exactly when the tag is not a
container tag. -/
def process_xml_tree (parent : Option String) (level : Nat) (e : Xml) : String :=
  element_to_markdown parent level e ++ extraWalk level e

/-- `process_xml_tree` including the `element is None` guard (lines 85-86). -/
def process_xml_tree_opt (parent : Option String) (level : Nat) : Option Xml → String
  | none => ""
  | some e => process_xml_tree parent level e

/-- `element_to_markdown` including the `element is None` guard (lines 105-106). -/
def element_to_markdown_opt (parent : Option String) (level : Nat) : Option Xml → String
  | none => ""
  | some e => element_to_markdown parent level e

/-! ### Render-call instrumentation for the double-rendering claim

`visitedPos e` lists, as child-index paths relative to `e`, every node on
which `process_xml_tree` invokes `element_to_markdown` during
`process_xml_tree e`: the node itself, plus — for non-container tags —
every child (the walker's loop), and — for container tags — exactly the
children the container's own branch walks (`section`/`subsection` walk
all but `num`/`heading`, `paragraph`/`subparagraph` all but
`num`/`content`, `note`/`notes` all but `heading`, `table`/`list` none). -/
def renderSel (ptag : String) (c : Xml) : Bool :=
  if !(skip_children_tags.contains ptag) then true
  else if ptag = "section" ∨ ptag = "subsection" then
    !(["num", "heading"].contains (get_tag_name c))
  else if ptag = "paragraph" ∨ ptag = "subparagraph" then
    !(["num", "content"].contains (get_tag_name c))
  else if ptag = "note" ∨ ptag = "notes" then
    !(get_tag_name c == "heading")
  else false

mutual
/-- Paths of the nodes the walk renders, relative to the given root. -/
def visitedPos : Xml → List (List Nat)
  | .mk t _ _ cs _ => [] :: visitedPosList (resolveTag t) 0 cs
/-- Paths contributed by the children from index `i` on. -/
def visitedPosList (ptag : String) (i : Nat) : XmlList → List (List Nat)
  | .nil => []
  | .cons c rest =>
    (if renderSel ptag c then (visitedPos c).map (fun q => i :: q) else []) ++
    visitedPosList ptag (i + 1) rest
end

/-! ### Concrete fixture trees used by witnesses and counterexamples -/

/-- A `num` child with the given text. -/
def numNode (s : String) : Xml := .mk "num" [] (some s) .nil none

/-- A `heading` child with the given text. -/
def headingNode (s : String) : Xml := .mk "heading" [] (some s) .nil none

/-- `<section><num>§63</num><heading>Taxable Income Defined</heading></section>`. -/
def sec63 : Xml :=
  .mk "section" [] none
    (.cons (numNode "§63") (.cons (headingNode "Taxable Income Defined") .nil)) none

/-- A textless element of an uncommon tag with a text-bearing `p` child. -/
def fooNode : Xml :=
  .mk "foo" [] none (.cons (.mk "p" [] (some "hello") .nil none) .nil) none

/-- A textless element of an uncommon tag carrying only tail text. -/
def tailNode : Xml := .mk "foo" [] none .nil (some "hi")

/-- A `p` element with text and tail text. -/
def pTailNode : Xml := .mk "p" [] (some "hi") .nil (some " t ")

/-- A table with header cells A, B and one body row 1, 2. -/
def tblAB : Xml :=
  .mk "table" [] none
    (.cons (.mk "thead" [] none
        (.cons (.mk "tr" [] none
            (.cons (.mk "th" [] (some "A") .nil none)
              (.cons (.mk "th" [] (some "B") .nil none) .nil)) none) .nil) none)
      (.cons (.mk "tbody" [] none
        (.cons (.mk "tr" [] none
            (.cons (.mk "td" [] (some "1") .nil none)
              (.cons (.mk "td" [] (some "2") .nil none) .nil)) none) .nil) none) .nil))
    none

/-- A table element with no groups at all. -/
def emptyTable : Xml := .mk "table" [] none .nil none

/-- A section whose only child is a `num` element. -/
def secNum : Xml := .mk "section" [] none (.cons (numNode "§1") .nil) none

/-! # Theorems -/

/-! ## Shared helper lemmas -/

theorem consHead_ne_nil (c : Char) (L : List (List Char)) : consHead c L ≠ [] := by
  cases L <;> simp [consHead]

theorem splitParasAfterNl_ne_nil (l : List Char) : splitParasAfterNl l ≠ [] := by
  cases l with
  | nil => simp [splitParasAfterNl]
  | cons c r =>
    unfold splitParasAfterNl
    split
    · simp
    · exact consHead_ne_nil _ _

theorem splitParasL_ne_nil (l : List Char) : splitParasL l ≠ [] := by
  cases l with
  | nil => simp [splitParasL]
  | cons c r =>
    unfold splitParasL
    split
    · exact splitParasAfterNl_ne_nil r
    · exact consHead_ne_nil _ _

theorem joinParasL_cons_of_ne_nil (x : List Char) (L : List (List Char)) (h : L ≠ []) :
    joinParasL (x :: L) = x ++ '\n' :: '\n' :: joinParasL L := by
  cases L with
  | nil => exact absurd rfl h
  | cons y ys => simp [joinParasL]

theorem joinParasL_consHead (c : Char) (L : List (List Char)) (h : L ≠ []) :
    joinParasL (consHead c L) = c :: joinParasL L := by
  cases L with
  | nil => exact absurd rfl h
  | cons y ys =>
    cases ys with
    | nil => simp [consHead, joinParasL]
    | cons z zs => simp [consHead, joinParasL]

mutual
theorem joinParas_splitParas : (l : List Char) → joinParasL (splitParasL l) = l
  | [] => by simp [splitParasL, joinParasL]
  | c :: r => by
    unfold splitParasL
    by_cases h : c = '\n'
    · rw [if_pos h, joinParas_splitParasAfterNl r, h]
    · rw [if_neg h, joinParasL_consHead c _ (splitParasL_ne_nil r),
        joinParas_splitParas r]
theorem joinParas_splitParasAfterNl :
    (l : List Char) → joinParasL (splitParasAfterNl l) = '\n' :: l
  | [] => by simp [splitParasAfterNl, joinParasL]
  | c :: r => by
    unfold splitParasAfterNl
    by_cases h : c = '\n'
    · rw [if_pos h, joinParasL_cons_of_ne_nil _ _ (splitParasL_ne_nil r),
        joinParas_splitParas r, h]
      rfl
    · rw [if_neg h,
        joinParasL_consHead _ _ (consHead_ne_nil _ _),
        joinParasL_consHead c _ (splitParasL_ne_nil r),
        joinParas_splitParas r]
end

/-! ## C5: post-processor idempotence -/

/-- C5 (corrected): the post-processing pass is NOT idempotent in
general (see `C5_counterexample`: stripping whitespace-only lines can
create a run of three newlines that only a second application
collapses).  The amended claim: on every string already fixed by each of
the four stages — no 3+-newline run, all lines stripped, no blank line
before a heading, no double spaces — the pass is the identity, hence
idempotent there. -/
theorem C5_post_process_idempotent_on_normalized :
    ∀ s : String, collapse_newlines s = s → strip_lines s = s →
      remove_blank_before_heading s = s → collapse_spaces s = s →
      post_process (post_process s) = post_process s := by
  intro s h1 h2 h3 h4
  have hp : post_process s = s := by
    simp only [post_process, h1, h2, h3, h4]
  rw [hp]
  exact hp

/-- C5 witness: the amended idempotence applied to a concrete normalized
string. -/
theorem C5_witness : post_process (post_process "# a\nb") = post_process "# a\nb" :=
  C5_post_process_idempotent_on_normalized "# a\nb"
    (by decide) (by decide) (by decide) (by decide)

/-- C5 counterexample: on `"a\n \n \nb"` the first application strips the
whitespace-only lines, creating `"a\n\n\nb"`, and only the second
application collapses that newline run — so the pass applied twice
differs from the pass applied once. -/
theorem C5_counterexample :
    post_process (post_process "a\n \n \nb") ≠ post_process "a\n \n \nb" := by
  decide

/-! ## C10: chunk splitting round-trip -/

theorem chunkLoop_ne_nil (mx : Nat) :
    ∀ (paras : List (List Char)) (cur : List Char), cur ≠ [] →
      chunkLoop mx paras cur ≠ [] := by
  intro paras
  induction paras with
  | nil => intro cur h; simp [chunkLoop, h]
  | cons p ps ih =>
    intro cur h
    by_cases hc : cur.length + p.length + 2 > mx ∧ cur ≠ []
    · rw [chunkLoop, if_pos hc]; simp
    · rw [chunkLoop, if_neg hc, if_neg h]
      apply ih
      simp

theorem chunkLoop_join (mx : Nat) :
    ∀ (paras : List (List Char)) (cur : List Char), cur ≠ [] →
      (∀ p ∈ paras, p ≠ []) →
      joinParasL (chunkLoop mx paras cur) = joinParasL (cur :: paras) := by
  intro paras
  induction paras with
  | nil => intro cur h _; simp [chunkLoop, h, joinParasL]
  | cons p ps ih =>
    intro cur h hps
    have hp : p ≠ [] := hps p (by simp)
    have hrest : ∀ q ∈ ps, q ≠ [] := fun q hq => hps q (by simp [hq])
    by_cases hc : cur.length + p.length + 2 > mx ∧ cur ≠ []
    · rw [chunkLoop, if_pos hc,
        joinParasL_cons_of_ne_nil _ _ (chunkLoop_ne_nil mx ps p hp),
        ih p hp hrest,
        joinParasL_cons_of_ne_nil cur _ (by simp)]
    · rw [chunkLoop, if_neg hc, if_neg h, ih _ (by simp) hrest,
        joinParasL_cons_of_ne_nil cur _ (by simp)]
      cases ps with
      | nil => simp [joinParasL]
      | cons q qs =>
        rw [joinParasL_cons_of_ne_nil _ _ (by simp),
          joinParasL_cons_of_ne_nil p _ (by simp)]
        simp [List.append_assoc]

theorem joinParasL_append_head (a p : List Char) (ps : List (List Char)) :
    joinParasL ((a ++ '\n' :: '\n' :: p) :: ps) =
      a ++ '\n' :: '\n' :: joinParasL (p :: ps) := by
  cases ps with
  | nil => simp [joinParasL]
  | cons q qs =>
    rw [joinParasL_cons_of_ne_nil _ _ (by simp),
      joinParasL_cons_of_ne_nil p _ (by simp)]
    simp [List.append_assoc]

theorem intercalate_go_paras (L : List (List Char)) : ∀ (acc : String),
    String.intercalate.go acc "\n\n" (L.map (fun d => (⟨d⟩ : String))) =
      ⟨joinParasL (acc.data :: L)⟩ := by
  induction L with
  | nil =>
    intro acc
    show acc = (⟨joinParasL [acc.data]⟩ : String)
    cases acc
    rfl
  | cons p ps ih =>
    intro acc
    rw [List.map_cons,
      show String.intercalate.go acc "\n\n"
          ((⟨p⟩ : String) :: ps.map (fun d => (⟨d⟩ : String))) =
        String.intercalate.go (acc ++ "\n\n" ++ ⟨p⟩) "\n\n"
          (ps.map (fun d => (⟨d⟩ : String))) from rfl,
      ih]
    congr 1
    have hd : (acc ++ "\n\n" ++ (⟨p⟩ : String)).data = acc.data ++ '\n' :: '\n' :: p := by
      simp [String.data_append]
    rw [hd, joinParasL_append_head,
      joinParasL_cons_of_ne_nil acc.data (p :: ps) (by simp)]

theorem strIntercalate_paras (L : List (List Char)) :
    String.intercalate "\n\n" (L.map (fun d => (⟨d⟩ : String))) = ⟨joinParasL L⟩ := by
  cases L with
  | nil => rfl
  | cons x ps =>
    rw [List.map_cons,
      show String.intercalate "\n\n" ((⟨x⟩ : String) :: ps.map (fun d => (⟨d⟩ : String))) =
        String.intercalate.go ⟨x⟩ "\n\n" (ps.map (fun d => (⟨d⟩ : String))) from rfl,
      intercalate_go_paras]

/-- C10 (corrected): re-joining the chunks with `"\n\n"` reconstructs the
text whenever every `"\n\n"`-separated paragraph of the text is
non-empty.  (As stated, for EVERY text, the claim is false: empty
paragraphs — produced by leading, trailing or doubled separators — are
silently dropped by the accumulator loop; see `C10_counterexample`.) -/
theorem C10_chunks_rejoin :
    ∀ (text : String) (mx : Nat), 0 < mx →
      (∀ p ∈ splitParasL text.data, p ≠ []) →
      String.intercalate "\n\n" (split_by_paragraphs text mx) = text := by
  intro text mx _ hps
  unfold split_by_paragraphs
  obtain ⟨p0, ps, hsplit⟩ : ∃ p0 ps, splitParasL text.data = p0 :: ps := by
    cases hL : splitParasL text.data with
    | nil => exact absurd hL (splitParasL_ne_nil _)
    | cons a b => exact ⟨a, b, rfl⟩
  rw [hsplit]
  have h0 : p0 ≠ [] := hps p0 (by rw [hsplit]; simp)
  have hrest : ∀ q ∈ ps, q ≠ [] := fun q hq => hps q (by rw [hsplit]; simp [hq])
  rw [show chunkLoop mx (p0 :: ps) [] = chunkLoop mx ps p0 by
      rw [chunkLoop, if_neg (by simp), if_pos rfl],
    strIntercalate_paras, chunkLoop_join mx ps p0 h0 hrest,
    ← hsplit, joinParas_splitParas]

/-- C10 witness: the round-trip at a concrete two-paragraph text. -/
theorem C10_witness :
    String.intercalate "\n\n" (split_by_paragraphs "hello\n\nworld" 5000) =
      "hello\n\nworld" :=
  C10_chunks_rejoin "hello\n\nworld" 5000 (by decide) (by decide)

/-- C10 counterexample: the text `"\n\n"` splits into two empty
paragraphs, the loop accumulates nothing, and the rejoined chunks give
`""` — the round-trip fails (for every positive chunk size; shown at 5). -/
theorem C10_counterexample :
    String.intercalate "\n\n" (split_by_paragraphs "\n\n" 5) ≠ "\n\n" := by
  decide

/-! ## C8: citation extraction -/

/-- C8 (corrected): the concrete heading `## §63(c) Standard Deduction`
yields exactly `26 USC §63(c) [Standard Deduction]`; and for every
heading with no `§<number>` pattern the citation is
`US Tax Code [<heading with ALL runs of 1-4 hashes-plus-whitespace
removed, then trimmed>]`.  (The claim's `leading markdown hashes
removed` is wrong: the code's `re.sub(r"#{1,4}\s+", "", ...)` removes
such runs anywhere in the heading, not only at the front; see
`C8_counterexample`.) -/
theorem C8_extract_citation :
    extract_citation "## §63(c) Standard Deduction" =
      "26 USC §63(c) [Standard Deduction]" ∧
    ∀ heading : String, searchSection heading.data = none →
      extract_citation heading =
        "US Tax Code [" ++
          pyStrip ⟨subHashWsL heading.data.length heading.data⟩ ++ "]" := by
  constructor
  · decide
  · intro heading hnone
    unfold extract_citation
    rw [hnone]

/-- C8 witness: the no-section-pattern branch at a concrete heading. -/
theorem C8_witness :
    searchSection ("Plain heading".data) = none ∧
    extract_citation "Plain heading" =
      "US Tax Code [" ++
        pyStrip ⟨subHashWsL "Plain heading".data.length "Plain heading".data⟩ ++ "]" :=
  ⟨by decide, C8_extract_citation.2 "Plain heading" (by decide)⟩

/-- C8 counterexample: the heading `## Overview # note` has no
`§<number>` pattern, yet its citation is `US Tax Code [Overview note]`,
not `US Tax Code [Overview # note]` as removing only the LEADING hashes
(and trimming) would give — the mid-heading `# ` run is removed too. -/
theorem C8_counterexample :
    searchSection ("## Overview # note".data) = none ∧
    stripLeadingHashes "## Overview # note" = "Overview # note" ∧
    extract_citation "## Overview # note" = "US Tax Code [Overview note]" ∧
    extract_citation "## Overview # note" ≠
      "US Tax Code [" ++ stripLeadingHashes "## Overview # note" ++ "]" := by
  refine ⟨by decide, by decide, by decide, by decide⟩

/-! ## C9: relevant-section retrieval -/

theorem mem_insertByRelevance (l : List RelevantSection) (x y : RelevantSection) :
    y ∈ insertByRelevance x l ↔ y = x ∨ y ∈ l := by
  induction l with
  | nil => simp [insertByRelevance]
  | cons z zs ih =>
    unfold insertByRelevance
    split
    · simp [List.mem_cons]
      try tauto
    · simp [List.mem_cons, ih]
      try tauto

theorem pairwise_insertByRelevance (l : List RelevantSection) (x : RelevantSection)
    (hl : List.Pairwise (fun a b => b.relevance ≤ a.relevance) l) :
    List.Pairwise (fun a b => b.relevance ≤ a.relevance) (insertByRelevance x l) := by
  induction l with
  | nil => simp [insertByRelevance]
  | cons z zs ih =>
    rcases List.pairwise_cons.mp hl with ⟨hz, hzs⟩
    unfold insertByRelevance
    split_ifs with hcmp
    · refine List.pairwise_cons.mpr ⟨?_, hl⟩
      intro b hb
      rcases List.mem_cons.mp hb with rfl | hbz
      · exact Nat.le_of_lt hcmp
      · exact le_trans (hz b hbz) (Nat.le_of_lt hcmp)
    · refine List.pairwise_cons.mpr ⟨?_, ih hzs⟩
      intro b hb
      rcases (mem_insertByRelevance zs x b).mp hb with rfl | hbz
      · exact Nat.le_of_not_lt hcmp
      · exact hz b hbz

theorem foldl_insert_pairwise (l : List RelevantSection) :
    ∀ acc, List.Pairwise (fun a b => b.relevance ≤ a.relevance) acc →
      List.Pairwise (fun a b => b.relevance ≤ a.relevance)
        (l.foldl (fun acc x => insertByRelevance x acc) acc) := by
  induction l with
  | nil => intro acc h; simpa using h
  | cons x xs ih =>
    intro acc h
    exact ih _ (pairwise_insertByRelevance acc x h)

theorem sortByRelevance_pairwise (l : List RelevantSection) :
    List.Pairwise (fun a b => b.relevance ≤ a.relevance) (sortByRelevance l) :=
  foldl_insert_pairwise l [] List.Pairwise.nil

theorem mem_foldl_insert (l : List RelevantSection) :
    ∀ (acc : List RelevantSection) (y : RelevantSection),
      y ∈ l.foldl (fun acc x => insertByRelevance x acc) acc ↔ y ∈ acc ∨ y ∈ l := by
  induction l with
  | nil => intro acc y; simp
  | cons x xs ih =>
    intro acc y
    rw [List.foldl_cons, ih, mem_insertByRelevance]
    simp [List.mem_cons]
    tauto

theorem mem_sortByRelevance (l : List RelevantSection) (y : RelevantSection) :
    y ∈ sortByRelevance l ↔ y ∈ l := by
  unfold sortByRelevance
  rw [mem_foldl_insert]
  simp

theorem pyTake_length_le (n : Nat) (s : String) : (pyTake n s).length ≤ n := by
  show (s.data.take n).length ≤ n
  rw [List.length_take]
  omega

/-- C9 (confirmed): for every document text and question, the search
returns at most 3 records, in non-increasing relevance order, and every
returned record's content is the 500-character truncation of the
corresponding section's content (hence at most 500 characters long). -/
theorem C9_find_relevant_sections :
    ∀ (tax_code_content question : String),
      (find_relevant_sections tax_code_content question).length ≤ 3 ∧
      List.Pairwise (fun a b : RelevantSection => b.relevance ≤ a.relevance)
        (find_relevant_sections tax_code_content question) ∧
      ∀ r ∈ find_relevant_sections tax_code_content question,
        r.content.length ≤ 500 ∧
        ∃ hc ∈ findSections tax_code_content,
          r.heading = hc.1 ∧ r.content = pyTake 500 hc.2 := by
  intro content question
  refine ⟨?_, ?_, ?_⟩
  · unfold find_relevant_sections
    rw [List.length_take]
    omega
  · unfold find_relevant_sections
    exact List.Pairwise.sublist (List.take_sublist _ _) (sortByRelevance_pairwise _)
  · intro r hr
    unfold find_relevant_sections at hr
    have hr2 := (mem_sortByRelevance _ r).mp (List.mem_of_mem_take hr)
    obtain ⟨hc, hhc, heq⟩ := List.mem_filterMap.mp hr2
    by_cases hscore :
        0 < relevance_score (extract_key_terms question) hc.1 hc.2
    · rw [if_pos hscore] at heq
      obtain rfl := Option.some.inj heq
      exact ⟨pyTake_length_le 500 hc.2, hc, hhc, rfl, rfl⟩
    · rw [if_neg hscore] at heq
      exact absurd heq (by simp)

/-- C9 witness: the membership property applied to the one record
returned for a concrete document and question. -/
theorem C9_witness :
    (⟨"## §1 Tax", "income tax basics", "26 USC §1 [Tax]", 1⟩ :
        RelevantSection).content.length ≤ 500 ∧
    ∃ hc ∈ findSections "## §1 Tax\n\nincome tax basics",
      (⟨"## §1 Tax", "income tax basics", "26 USC §1 [Tax]", 1⟩ :
          RelevantSection).heading = hc.1 ∧
      (⟨"## §1 Tax", "income tax basics", "26 USC §1 [Tax]", 1⟩ :
          RelevantSection).content = pyTake 500 hc.2 :=
  (C9_find_relevant_sections "## §1 Tax\n\nincome tax basics" "What about tax?").2.2
    ⟨"## §1 Tax", "income tax basics", "26 USC §1 [Tax]", 1⟩ (by decide)

/-! ## C1 / C2 / C3: renderer and walker structure -/

theorem allow_false_skip_false (tag : String)
    (h : structural_allow_tags.contains tag = false) :
    skip_children_tags.contains tag = false := by
  simp only [structural_allow_tags, skip_children_tags,
    List.contains_eq_any_beq, List.any_cons, List.any_nil,
    Bool.or_eq_false_iff] at h ⊢
  tauto

theorem process_non_container (p : Option String) (l : Nat)
    (t : String) (a : List (String × String)) (x : Option String)
    (cs : XmlList) (tl : Option String)
    (h : skip_children_tags.contains (resolveTag t) = false) :
    process_xml_tree p l (.mk t a x cs tl) =
      element_to_markdown p l (.mk t a x cs tl) ++
        walkExcept (some t) (l + 1) [] cs := by
  rw [process_xml_tree, extraWalk]
  rw [show should_process_children (Xml.mk t a x cs tl) =
      !(skip_children_tags.contains (resolveTag t)) from rfl, h]
  rfl

theorem process_container (p : Option String) (l : Nat)
    (t : String) (a : List (String × String)) (x : Option String)
    (cs : XmlList) (tl : Option String)
    (h : skip_children_tags.contains (resolveTag t) = true) :
    process_xml_tree p l (.mk t a x cs tl) =
      element_to_markdown p l (.mk t a x cs tl) := by
  rw [process_xml_tree, extraWalk]
  rw [show should_process_children (Xml.mk t a x cs tl) =
      !(skip_children_tags.contains (resolveTag t)) from rfl, h]
  exact String.append_empty _

theorem walkExcept_eq_join (p : Option String) (l : Nat) (ex : List String) :
    (cs : XmlList) →
      walkExcept p l ex cs =
        concatAll ((cs.toList.filter
            (fun c => !(ex.contains (get_tag_name c)))).map (process_xml_tree p l))
  | .nil => by simp [walkExcept, XmlList.toList, concatAll]
  | .cons c rest => by
    rw [walkExcept, walkExcept_eq_join p l ex rest]
    rw [show XmlList.toList (.cons c rest) = c :: rest.toList from rfl,
      List.filter_cons]
    cases hx : ex.contains (get_tag_name c) with
    | true => simp
    | false => simp [concatAll, process_xml_tree]

/-- C1 (corrected): an element with empty (or whitespace-only) direct
text and a resolved tag outside the structural allow-list makes the
per-element renderer return the empty string — no tag branch runs and
its tail text is dropped — BUT the tree walk does NOT skip its children:
such a tag is also outside the walker's skip set, so the walker still
recurses into every child, and the children's content does appear in the
output (see `C1_counterexample`). -/
theorem C1_textless_nonstructural :
    ∀ (parent : Option String) (level : Nat) (t : String)
      (a : List (String × String)) (x : Option String) (cs : XmlList)
      (tl : Option String),
      pyStrip (x.getD "") = "" →
      structural_allow_tags.contains (resolveTag t) = false →
      element_to_markdown parent level (.mk t a x cs tl) = "" ∧
      process_xml_tree parent level (.mk t a x cs tl) =
        concatAll ((cs.toList).map (process_xml_tree (some t) (level + 1))) := by
  intro p l t a x cs tl hx ht
  have hemd : element_to_markdown p l (.mk t a x cs tl) = "" := by
    simp only [element_to_markdown]
    rw [if_pos ⟨hx, ht⟩]
  refine ⟨hemd, ?_⟩
  rw [process_non_container p l t a x cs tl (allow_false_skip_false _ ht), hemd,
    String.empty_append, walkExcept_eq_join]
  have hfilter :
      (fun c => !(([] : List String).contains (get_tag_name c))) = fun _ => true := rfl
  rw [hfilter, List.filter_true]

/-- C1 counterexample: a textless `foo` element (tag outside the
allow-list) with a `p` child whose text is `hello` — the tree walk
yields `"hello "`, not the empty string: the children are not skipped. -/
theorem C1_counterexample :
    pyStrip (fooNode.text.getD "") = "" ∧
    structural_allow_tags.contains (get_tag_name fooNode) = false ∧
    process_xml_tree none 0 fooNode = "hello " ∧
    process_xml_tree none 0 fooNode ≠ "" := by
  refine ⟨by decide, by decide, by decide, by decide⟩

/-- C1 witness: the amended statement evaluated at the `foo` fixture. -/
theorem C1_witness :
    element_to_markdown none 0 fooNode = "" ∧
    process_xml_tree none 0 fooNode =
      concatAll ((fooNode.children.toList).map (process_xml_tree (some "foo") 1)) :=
  C1_textless_nonstructural none 0 "foo" [] none fooNode.children none
    (by decide) (by decide)

theorem table_to_markdown_tail_irrel (t : String) (a : List (String × String))
    (x : Option String) (cs : XmlList) (tl : Option String) :
    table_to_markdown (Xml.mk t a x cs tl) =
      table_to_markdown (Xml.mk t a x cs none) := by
  cases hb : htmlTagName t == "table" <;>
    simp [table_to_markdown, find_table, hb, Xml.tag, Xml.children, table_lines,
      table_header_lines, table_headers, table_body_lines, findFirstIn]

theorem convert_list_tail_irrel (t : String) (a : List (String × String))
    (x : Option String) (cs : XmlList) (tl : Option String) :
    convert_list (Xml.mk t a x cs tl) = convert_list (Xml.mk t a x cs none) := by
  simp [convert_list, Xml.children]

/-- C2 (corrected): the tail-text suffix IS appended after the
tag-specific branch — its trimmed text plus one space, with the rest of
the output independent of the tail — but NOT unconditionally for every
tag: the empty-element filter runs first, and an element with blank text
and a tag outside the structural allow-list returns `""` before the tail
append is reached, dropping its tail (see `C2_counterexample`).  The
amended claim therefore holds for exactly the nodes that pass that
filter. -/
theorem C2_tail_suffix :
    ∀ (parent : Option String) (level : Nat) (t : String)
      (a : List (String × String)) (x : Option String) (cs : XmlList)
      (tl : Option String),
      (pyStrip (x.getD "") ≠ "" ∨
        structural_allow_tags.contains (resolveTag t) = true) →
      element_to_markdown parent level (.mk t a x cs tl) =
        element_to_markdown parent level (.mk t a x cs none) ++ tailText tl := by
  intro p l t a x cs tl h
  have hno : ¬(pyStrip (x.getD "") = "" ∧
      structural_allow_tags.contains (resolveTag t) = false) := by
    rcases h with h | h
    · exact fun hc => h hc.1
    · intro hc
      rw [h] at hc
      exact absurd hc.2 (by simp)
  simp only [element_to_markdown]
  rw [if_neg hno, if_neg hno, table_to_markdown_tail_irrel,
    convert_list_tail_irrel,
    show tailText none = "" from rfl, String.append_empty]

/-- C2 counterexample: a blank `foo` element with tail `hi` — the claim
predicts its fragment to end with the appended tail `"hi "`, but the
empty-element filter returns before the tail append runs, so the
renderer yields `""` and the tail is lost. -/
theorem C2_counterexample :
    tailNode.tail = some "hi" ∧
    element_to_markdown none 0 tailNode = "" ∧
    element_to_markdown none 0 (.mk "foo" [] none .nil none) ++
      pyStrip "hi" ++ " " = "hi " ∧
    ("" : String) ≠ "hi " := by
  refine ⟨by decide, by decide, by decide, by decide⟩

/-- C2 witness: the amended tail rule at a concrete `p` element. -/
theorem C2_witness :
    element_to_markdown none 0 pTailNode =
      element_to_markdown none 0 (.mk "p" [] (some "hi") .nil none) ++
        tailText (some " t ") :=
  C2_tail_suffix none 0 "p" [] (some "hi") .nil (some " t ") (Or.inl (by decide))

mutual
theorem visitedPos_nodup : (e : Xml) → (visitedPos e).Nodup
  | .mk t a x cs tl => by
    rw [visitedPos]
    refine List.nodup_cons.mpr ⟨?_, (visitedPosList_props (resolveTag t) 0 cs).1⟩
    intro hmem
    obtain ⟨j, q2, hq, _⟩ := (visitedPosList_props (resolveTag t) 0 cs).2 [] hmem
    exact absurd hq (by simp)
theorem visitedPosList_props : (ptag : String) → (i : Nat) → (cs : XmlList) →
    (visitedPosList ptag i cs).Nodup ∧
    ∀ q ∈ visitedPosList ptag i cs, ∃ j q2, q = j :: q2 ∧ i ≤ j
  | ptag, i, .nil => by simp [visitedPosList]
  | ptag, i, .cons c rest => by
    rw [visitedPosList]
    have hc := visitedPos_nodup c
    have hr := visitedPosList_props ptag (i + 1) rest
    constructor
    · rw [List.nodup_append]
      refine ⟨?_, hr.1, ?_⟩
      · split
        · exact List.Nodup.map (List.cons_injective) hc
        · simp
      · intro q hq1 hq2
        obtain ⟨j, q2, rfl, hj⟩ := hr.2 q hq2
        split at hq1
        · obtain ⟨q3, _, heq⟩ := List.mem_map.mp hq1
          have : i = j := (List.cons.injEq _ _ _ _).mp heq |>.1
          omega
        · exact absurd hq1 (by simp)
    · intro q hq
      rcases List.mem_append.mp hq with h1 | h2
      · split at h1
        · obtain ⟨q3, _, heq⟩ := List.mem_map.mp h1
          exact ⟨i, q3, heq.symm, le_refl i⟩
        · exact absurd h1 (by simp)
      · obtain ⟨j, q2, rfl, hj⟩ := hr.2 q h2
        exact ⟨j, q2, rfl, by omega⟩
end

/-- C3 (corrected): no node is rendered twice (the list of positions the
walk renders is duplicate-free), a null/absent input yields the empty
string, and the walker recurses into all children exactly when the
resolved tag is outside the container set `skip_children_tags` (for
container tags the walker adds nothing beyond the renderer's own
branch).  The claim's `renderer invoked on every node exactly once`,
however, is false: metadata children (`num`/`heading` of sections,
`num`/`content` of paragraphs, `heading` of notes) and all descendants
of `table`/`list` nodes are never passed to the renderer at all (see
`C3_counterexample`). -/
theorem C3_no_double_rendering :
    (∀ e : Xml, (visitedPos e).Nodup) ∧
    (∀ (p : Option String) (l : Nat), process_xml_tree_opt p l none = "") ∧
    (∀ (p : Option String) (l : Nat) (e : Xml),
      skip_children_tags.contains (get_tag_name e) = false →
      process_xml_tree p l e =
        element_to_markdown p l e ++
          concatAll ((e.children.toList).map (process_xml_tree (some e.tag) (l + 1)))) ∧
    (∀ (p : Option String) (l : Nat) (e : Xml),
      skip_children_tags.contains (get_tag_name e) = true →
      process_xml_tree p l e = element_to_markdown p l e) := by
  refine ⟨fun e => visitedPos_nodup e, fun p l => rfl, ?_, ?_⟩
  · intro p l e h
    cases e with
    | mk t a x cs tl =>
      have h2 : skip_children_tags.contains (resolveTag t) = false := h
      rw [process_non_container p l t a x cs tl h2, walkExcept_eq_join]
      have hfilter :
          (fun c => !(([] : List String).contains (get_tag_name c))) =
            fun _ => true := rfl
      rw [hfilter, List.filter_true]
      rfl
  · intro p l e h
    cases e with
    | mk t a x cs tl =>
      have h2 : skip_children_tags.contains (resolveTag t) = true := h
      exact process_container p l t a x cs tl h2

/-- C3 counterexample: a section with a single `num` child — that child
is a node of the tree, yet the walk never passes it to the renderer, so
`exactly once` fails (zero renders for node `[0]`). -/
theorem C3_counterexample :
    visitedPos secNum = [[]] ∧
    secNum.children.toList.length = 1 ∧
    [0] ∉ visitedPos secNum := by
  refine ⟨by decide, by decide, by decide⟩

/-- C3 witness: the walker equation applied to the non-container `foo`
fixture. -/
theorem C3_witness :
    process_xml_tree none 0 fooNode =
      element_to_markdown none 0 fooNode ++
        concatAll ((fooNode.children.toList).map
          (process_xml_tree (some fooNode.tag) 1)) :=
  C3_no_double_rendering.2.2.1 none 0 fooNode (by decide)

/-! ## C4: section rendering -/

theorem append_space_append_ne_empty (a b : String) : a ++ (" " ++ b) ≠ "" := by
  intro h
  have := congrArg String.data h
  simp [String.data_append] at this

/-- C4 (confirmed): the concrete section with `num` = `§63` and
`heading` = `Taxable Income Defined` renders to exactly
`"\n## §63 Taxable Income Defined\n\n"`; in general a `section` node
with both `num` and `heading` present renders the level-2 header line
`<num> <heading>` followed by the walk of all non-`num`/`heading`
children at level+1 (and the tail suffix), while a section with neither
present omits the header entirely. -/
theorem C4_section_rendering :
    element_to_markdown none 0 sec63 = "\n## §63 Taxable Income Defined\n\n" ∧
    (∀ (p : Option String) (l : Nat) (t : String)
        (a : List (String × String)) (x : Option String) (cs : XmlList)
        (tl : Option String),
        resolveTag t = "section" →
        get_child_text_list "num" cs ≠ "" →
        get_child_text_list "heading" cs ≠ "" →
        element_to_markdown p l (.mk t a x cs tl) =
          "\n## " ++ (get_child_text_list "num" cs ++ " " ++
              get_child_text_list "heading" cs) ++ "\n\n" ++
            walkExcept (some t) (l + 1) ["num", "heading"] cs ++ tailText tl) ∧
    (∀ (p : Option String) (l : Nat) (t : String)
        (a : List (String × String)) (x : Option String) (cs : XmlList)
        (tl : Option String),
        resolveTag t = "section" →
        get_child_text_list "num" cs = "" →
        get_child_text_list "heading" cs = "" →
        element_to_markdown p l (.mk t a x cs tl) =
          walkExcept (some t) (l + 1) ["num", "heading"] cs ++ tailText tl) := by
  refine ⟨by decide, ?_, ?_⟩
  · intro p l t a x cs tl ht hn hh
    simp [element_to_markdown, ht, hn, hh, append_space_append_ne_empty,
      String.append_assoc, structural_allow_tags]
  · intro p l t a x cs tl ht hn hh
    simp [element_to_markdown, ht, hn, hh, structural_allow_tags]

/-- C4 witness: the general both-present rule applied at the `sec63`
fixture. -/
theorem C4_witness :
    element_to_markdown none 0 sec63 =
      "\n## " ++ (get_child_text_list "num" sec63.children ++ " " ++
          get_child_text_list "heading" sec63.children) ++ "\n\n" ++
        walkExcept (some "section") 1 ["num", "heading"] sec63.children ++
        tailText none :=
  C4_section_rendering.2.1 none 0 "section" [] none sec63.children none
    (by decide) (by decide) (by decide)

/-! ## C6 / C7: table conversion -/

/-- C6 (confirmed): the two-header one-row table converts to exactly the
three lines `| A | B |`, `| --- | --- |`, `| 1 | 2 |`; in general,
whenever a table is found and at least one header cell exists, the
emitted lines start with the pipe-joined header row followed by a
separator row of exactly one `---` cell per header cell. -/
theorem C6_table_conversion :
    table_to_markdown tblAB = "| A | B |\n| --- | --- |\n| 1 | 2 |" ∧
    ∀ (e tb : Xml), find_table e = some tb → table_headers tb ≠ [] →
      ∃ rest,
        table_lines tb =
          ("| " ++ String.intercalate " | " (table_headers tb) ++ " |") ::
          ("| " ++ String.intercalate " | "
              (List.replicate (table_headers tb).length "---") ++ " |") :: rest ∧
        table_to_markdown e = String.intercalate "\n" (table_lines tb) := by
  constructor
  · decide
  · intro e tb hf hh
    refine ⟨table_body_lines tb, ?_, ?_⟩
    · simp only [table_lines, table_header_lines]
      rw [if_pos hh]
      rfl
    · rw [table_to_markdown, hf]

/-- C6 witness: the separator-shape consequence at the concrete table. -/
theorem C6_witness :
    ∃ rest,
      table_lines tblAB =
        ("| " ++ String.intercalate " | " (table_headers tblAB) ++ " |") ::
        ("| " ++ String.intercalate " | "
            (List.replicate (table_headers tblAB).length "---") ++ " |") :: rest ∧
      table_to_markdown tblAB = String.intercalate "\n" (table_lines tblAB) :=
  C6_table_conversion.2 tblAB tblAB (by decide) (by decide)

/-- C7 (confirmed): table conversion is a total function that degrades
instead of failing — with no `thead` the output holds body rows only,
with no `tbody` header rows only, with neither (or when no table element
is found at all) it is the empty string. -/
theorem C7_table_degradation :
    ∀ e : Xml,
      (find_table e = none → table_to_markdown e = "") ∧
      (∀ tb : Xml, find_table e = some tb →
        (findFirstIn "thead" tb = none →
          table_to_markdown e = String.intercalate "\n" (table_body_lines tb)) ∧
        (findFirstIn "tbody" tb = none →
          table_to_markdown e = String.intercalate "\n" (table_header_lines tb)) ∧
        (findFirstIn "thead" tb = none → findFirstIn "tbody" tb = none →
          table_to_markdown e = "")) := by
  intro e
  constructor
  · intro h
    rw [table_to_markdown, h]
  · intro tb hf
    have hmd : table_to_markdown e = String.intercalate "\n" (table_lines tb) := by
      rw [table_to_markdown, hf]
    have hhd : findFirstIn "thead" tb = none → table_headers tb = [] := by
      intro hth
      rw [table_headers, hth]
    have hbd : findFirstIn "tbody" tb = none → table_body_lines tb = [] := by
      intro htb
      rw [table_body_lines, htb]
    refine ⟨?_, ?_, ?_⟩
    · intro hth
      rw [hmd, table_lines, table_header_lines, hhd hth]
      simp
    · intro htb
      rw [hmd, table_lines, hbd htb, List.append_nil]
    · intro hth htb
      rw [hmd, table_lines, table_header_lines, hhd hth, hbd htb]
      simp
      rfl

/-- C7 witness: a bare table with neither group converts to `""`. -/
theorem C7_witness : table_to_markdown emptyTable = "" :=
  ((C7_table_degradation emptyTable).2 emptyTable (by decide)).2.2
    (by decide) (by decide)
